import Mathlib

/-!
Verification of the Amber Radiance 1 camera protocol core (packet codec,
stream reassembler, request correlator, option maps) against its
natural-language specification.

The JavaScript source (src/index.js) is shallowly embedded: byte buffers
become `List Nat` whose elements are byte values, `Buffer` element
assignment truncates modulo 256, little-endian 16-bit reads/writes are
explicit arithmetic, thrown exceptions become explicit error results.
-/

namespace AmberRadiance

/-- A thrown error from `parsePacket`: the only throw site is the checksum
comparison, carrying the computed (expected) and stored (got) byte. -/
inductive ParseError where
  | checksumMismatch (expected got : Nat)
deriving DecidableEq

/-- The value returned by `parsePacket`: `{ messageID, response }`, where
`response` is `none` when the source returns `undefined` (dataSize 0). -/
structure ParseResult where
  messageID : Nat
  response : Option (List Nat)
deriving DecidableEq

/-- Outcome of `parsePacket`: normal return or thrown error. -/
inductive Parsed where
  | ok (r : ParseResult)
  | error (e : ParseError)
deriving DecidableEq

/-- `Parsed.isOk` is true on a normal return. -/
def Parsed.isOk : Parsed → Bool
  | .ok _ => true
  | .error _ => false

/-- `buff.readUInt16LE(i)`: little-endian 16-bit read at byte offset `i`. -/
def readUInt16LE (l : List Nat) (i : Nat) : Nat :=
  l.getD i 0 + 256 * l.getD (i + 1) 0

/-- Serialization of a list of 16-bit words as consecutive little-endian
byte pairs, as the `writeUInt16LE` loop of `createPacket` produces. -/
def serializeLE16 : List Nat → List Nat
  | [] => []
  | w :: ws => w % 256 :: (w / 256) % 256 :: serializeLE16 ws

/-- The data block built by `createPacket`: `Buffer.alloc(2 + 2*len)` left
all-zero when `data` is empty, otherwise the 2-byte little-endian length
prefix (`data.length * 2`) followed by the argument words.  Node's
`writeUInt16LE` throws `ERR_OUT_OF_RANGE` instead of wrapping when a value
exceeds 65535, so this model is faithful exactly when
`data.length * 2 ≤ 65535` and every word is ≤ 65535; theorems about
non-empty data carry those bounds as hypotheses. -/
def dataBlockOf (data : List Nat) : List Nat :=
  if data.length = 0 then [0, 0]
  else (data.length * 2) % 256 :: ((data.length * 2) / 256) % 256 :: serializeLE16 data

/-- `createPacket(messageNumber, command, subCommand, ...data)` from
src/index.js: 8-byte header `[3, 0, 1, command, subCommand, messageNumber,
0xff, 0xff]` (Buffer stores each value mod 256), then the data block, then
the footer `[checksum, 2, 0, 0]` where the checksum byte accumulates the
sum of all preceding bytes mod 256. -/
def createPacket (messageNumber command subCommand : Nat) (data : List Nat) : List Nat :=
  let header : List Nat :=
    [3, 0, 1, command % 256, subCommand % 256, messageNumber % 256, 255, 255]
  let msg := header ++ dataBlockOf data
  msg ++ [msg.sum % 256, 2, 0, 0]

/-- `parsePacket(buff, dataSize)` from src/index.js: sums the first
`10 + dataSize` bytes, throws on checksum mismatch against the byte at
offset `10 + dataSize`, otherwise returns message id (byte 5) and the
payload `buff.subarray(10, 10 + dataSize)` (`undefined` when dataSize is 0). -/
def parsePacket (buff : List Nat) (dataSize : Nat) : Parsed :=
  if buff.getD (10 + dataSize) 0 = (buff.take (10 + dataSize)).sum % 256 then
    .ok ⟨buff.getD 5 0, if dataSize = 0 then none else some ((buff.drop 10).take dataSize)⟩
  else
    .error (.checksumMismatch ((buff.take (10 + dataSize)).sum % 256)
      (buff.getD (10 + dataSize) 0))

/-- One call of `Camera.receive(data)` acting on the receive buffer `buf`:
append the chunk, and if at least 14 bytes are buffered and the buffer
holds the `14 + dataSize` bytes announced at offset 8, slice that packet
off the front.  Returns the new buffer and the extracted slice (with its
data size) when one was extracted; the decode of the slice is
`parsePacket slice dataSize`. -/
def receive (buf data : List Nat) : List Nat × Option (List Nat × Nat) :=
  if 14 ≤ (buf ++ data).length then
    if 14 + readUInt16LE (buf ++ data) 8 ≤ (buf ++ data).length then
      ((buf ++ data).drop (14 + readUInt16LE (buf ++ data) 8),
        some ((buf ++ data).take (14 + readUInt16LE (buf ++ data) 8),
          readUInt16LE (buf ++ data) 8))
    else (buf ++ data, none)
  else (buf ++ data, none)

/-- Successive `Camera.receive` calls, one per inbound chunk, starting from
receive buffer `buf`: final buffer and the extracted packet slices in
order. -/
def runReceive (buf : List Nat) : List (List Nat) → List Nat × List (List Nat × Nat)
  | [] => (buf, [])
  | c :: cs =>
    match receive buf c with
    | (b, none) => runReceive b cs
    | (b, some e) =>
      let r := runReceive b cs
      (r.1, e :: r.2)

/-- A well-formed wire packet: its length is exactly `14 + dataSize` for
the data size announced at offset 8, and its checksum byte at offset
`10 + dataSize` equals the mod-256 sum of the bytes before it. -/
def ValidPacket (p : List Nat) : Prop :=
  p.length = 14 + readUInt16LE p 8 ∧
    p.getD (10 + readUInt16LE p 8) 0 = (p.take (10 + readUInt16LE p 8)).sum % 256

instance (p : List Nat) : Decidable (ValidPacket p) := by
  unfold ValidPacket; infer_instance

/-- Sequence-number allocation in `Camera.send`: the packet is built with
the current `this.messageNumber` (so its byte 5 stores `messageNumber % 256`),
the awaiter is registered under the event key containing the same
pre-increment value, and the counter becomes `messageNumber + 1` — the
source applies no reduction mod 256.  Components: (sequence byte stored in
the packet, awaiter registration key, next counter value). -/
def sendAllocation (messageNumber : Nat) : Nat × Nat × Nat :=
  (messageNumber % 256, messageNumber, messageNumber + 1)

/-- `AGC_MODES` from src/index.js, in object-key insertion order. -/
def AGC_MODES : List (String × Int) :=
  [("off", -1), ("full", 0), ("midsize", 1), ("center", 2), ("horizon", 3)]

/-- `ITT_MODES` from src/index.js. -/
def ITT_MODES : List (String × Int) :=
  [("linear", 1), ("inverse", 2), ("s-curve", 3), ("two-cycle", 4)]

/-- `NUC_MODES` from src/index.js. -/
def NUC_MODES : List (String × Int) :=
  [("cold", 1), ("mid", 2), ("warm", 3), ("hot", 4)]

/-- `LUT_MODES` from src/index.js. -/
def LUT_MODES : List (String × Int) :=
  [("black-and-white", 1), ("color", 2), ("sepia", 3)]

/-- Outcome of `validate`: the numeric wire value, or the thrown error
message. -/
inductive Validated where
  | ok (v : Int)
  | error (msg : String)
deriving DecidableEq

/-- The error message built by `validate`:
`Option "<option>" is invalid. Available options are ["k1", "k2", ...]`. -/
def invalidMsg (option : String) (options : List (String × Int)) : String :=
  "Option \"" ++ option ++ "\" is invalid. Available options are [" ++
    String.intercalate ", " ((options.map Prod.fst).map (fun v => "\"" ++ v ++ "\"")) ++ "]"

/-- `validate(option, options)` from src/index.js: throws when `option` is
not among the object's keys, otherwise returns `options[option]`.  The
source tests `Object.keys(options).includes(option)` and then indexes;
since the key list is `options.map Prod.fst`, that membership test succeeds
exactly when `List.lookup` does, and indexing a present key returns its
(first) value. -/
def validate (option : String) (options : List (String × Int)) : Validated :=
  match List.lookup option options with
  | some v => .ok v
  | none => .error (invalidMsg option options)

/-- One `this.send(command, subCommand, ...args)` call issued by a setter. -/
structure SendCall where
  command : Nat
  subCommand : Nat
  args : List Int
deriving DecidableEq

/-- What a setter does before returning: either the ordered list of `send`
calls it hands to the transport, or the error thrown by `validate` — in
the error case the setter throws before building or sending any packet. -/
inductive SetterPlan where
  | sends (calls : List SendCall)
  | error (msg : String)
deriving DecidableEq

/-- `Camera.setAGC(mode)`: validate against `AGC_MODES`; `'off'` sends
`AGC_OFF` (1,0); otherwise sends `AGC_ON` (1,1) then `AGC_SET` (1,3) with
the mode's wire value. -/
def setAGC (mode : String) : SetterPlan :=
  match validate mode AGC_MODES with
  | .error e => .error e
  | .ok v =>
    if mode = "off" then .sends [⟨1, 0, []⟩]
    else .sends [⟨1, 1, []⟩, ⟨1, 3, [v]⟩]

/-- `Camera.setITT(mode)`: validate against `ITT_MODES`, send `ITT_SET`
(5,4) with the wire value. -/
def setITT (mode : String) : SetterPlan :=
  match validate mode ITT_MODES with
  | .error e => .error e
  | .ok v => .sends [⟨5, 4, [v]⟩]

/-- `Camera.setLUT(mode)`: validate against `LUT_MODES`, send `LUT_SET`
(5,1) with the wire value. -/
def setLUT (mode : String) : SetterPlan :=
  match validate mode LUT_MODES with
  | .error e => .error e
  | .ok v => .sends [⟨5, 1, [v]⟩]

/-- `Camera.setNUC(mode)`: validate against `NUC_MODES`, send `NUC_SET`
(7,5) with the wire value. -/
def setNUC (mode : String) : SetterPlan :=
  match validate mode NUC_MODES with
  | .error e => .error e
  | .ok v => .sends [⟨7, 5, [v]⟩]

/-- `invertMap(obj)` from src/index.js: the value-to-key map.  The source
builds an object keyed by each value (later duplicates overwriting earlier
ones); the mode maps have pairwise-distinct values, so an association list
looked up with `List.lookup` is an exact model. -/
def invertMap (options : List (String × Int)) : List (Int × String) :=
  options.map (fun p => (p.2, p.1))

/-- The decode step of `Camera.getITT`: `ITT_MAP[response.readUInt16LE(0)]`,
where a missing entry gives JavaScript `undefined`, modelled as `none`. -/
def getITTDecode (wire : Nat) : Option String :=
  List.lookup (wire : Int) (invertMap ITT_MODES)

/-- The decode step of `Camera.getLUT`: `LUT_MAP[response.readUInt16LE(0)]`. -/
def getLUTDecode (wire : Nat) : Option String :=
  List.lookup (wire : Int) (invertMap LUT_MODES)

/-- The decode step of `Camera.getNUC`: `NUC_MAP[response.readUInt16LE(0)]`. -/
def getNUCDecode (wire : Nat) : Option String :=
  List.lookup (wire : Int) (invertMap NUC_MODES)

/- ───────────────────────── helper lemmas ───────────────────────── -/

theorem getD_append_lt (l r : List Nat) (i : Nat) (h : i < l.length) :
    (l ++ r).getD i 0 = l.getD i 0 := by
  simp [List.getD, List.getElem?_append_left h]

theorem getD_append_len (l : List Nat) (x : Nat) (r : List Nat) :
    (l ++ x :: r).getD l.length 0 = x := by
  simp [List.getD, List.getElem?_append_right (Nat.le_refl _)]

theorem serializeLE16_length (ws : List Nat) :
    (serializeLE16 ws).length = 2 * ws.length := by
  induction ws with
  | nil => rfl
  | cons w ws ih => simp [serializeLE16, ih]; omega

theorem dataBlockOf_length (data : List Nat) :
    (dataBlockOf data).length = 2 + 2 * data.length := by
  cases data with
  | nil => rfl
  | cons w ws => simp [dataBlockOf, serializeLE16_length]; omega

/-- C8 helper: shape of the packet body. -/
theorem createPacket_eq (m c s : Nat) (data : List Nat) :
    createPacket m c s data =
      ([3, 0, 1, c % 256, s % 256, m % 256, 255, 255] ++ dataBlockOf data) ++
        [([3, 0, 1, c % 256, s % 256, m % 256, 255, 255] ++ dataBlockOf data).sum % 256,
          2, 0, 0] := rfl

theorem createPacket_length (m c s : Nat) (data : List Nat) :
    (createPacket m c s data).length = 14 + 2 * data.length := by
  rw [createPacket_eq]
  simp [dataBlockOf_length]
  omega

theorem take_len_append (l r : List Nat) (n : Nat) (h : l.length = n) :
    (l ++ r).take n = l := by
  rw [← h]; exact List.take_left _ _

theorem drop_len_append (l r : List Nat) (n : Nat) (h : l.length = n) :
    (l ++ r).drop n = r := by
  rw [← h]; exact List.drop_left _ _

/-- C1: codec round-trip: decoding an encoded packet (with declared data
size twice the argument count) succeeds and returns the original sequence
number and the little-endian serialization of the argument words, for
inputs in the range `writeUInt16LE` accepts (each word and the length
prefix `2 * args.length` at most 65535 — beyond that the source's encode
throws rather than producing a packet). -/
theorem encode_decode_round_trip (c s m : Nat) (args : List Nat) (hm : m < 256)
    (ha : ∀ a ∈ args, a < 65536) (hlen : 2 * args.length ≤ 65535) :
    parsePacket (createPacket m c s args) (2 * args.length) =
      .ok ⟨m, if args.length = 0 then none else some (serializeLE16 args)⟩ := by
  rw [createPacket_eq]
  set body := [3, 0, 1, c % 256, s % 256, m % 256, 255, 255] ++ dataBlockOf args with hbody
  have hbl : body.length = 10 + 2 * args.length := by
    rw [hbody]; simp [dataBlockOf_length]; omega
  have h1 : (body ++ [body.sum % 256, 2, 0, 0]).getD (10 + 2 * args.length) 0 =
      body.sum % 256 := by
    rw [← hbl]; exact getD_append_len _ _ _
  have h2 : (body ++ [body.sum % 256, 2, 0, 0]).take (10 + 2 * args.length) = body :=
    take_len_append _ _ _ hbl
  have h5 : (body ++ [body.sum % 256, 2, 0, 0]).getD 5 0 = m := by
    rw [getD_append_lt _ _ 5 (by omega), hbody,
      getD_append_lt _ _ 5 (by simp)]
    simpa [List.getD] using Nat.mod_eq_of_lt hm
  unfold parsePacket
  rw [h1, h2, if_pos rfl, h5]
  cases args with
  | nil => rfl
  | cons w ws =>
    have hsplit : body ++ [body.sum % 256, 2, 0, 0] =
        ([3, 0, 1, c % 256, s % 256, m % 256, 255, 255] ++
            [((w :: ws).length * 2) % 256, (((w :: ws).length * 2) / 256) % 256]) ++
          (serializeLE16 (w :: ws) ++ [body.sum % 256, 2, 0, 0]) := by
      rw [hbody]; simp [dataBlockOf]
    have hdrop : (body ++ [body.sum % 256, 2, 0, 0]).drop 10 =
        serializeLE16 (w :: ws) ++ [body.sum % 256, 2, 0, 0] := by
      rw [hsplit]; exact drop_len_append _ _ _ (by simp)
    have htake : (serializeLE16 (w :: ws) ++ [body.sum % 256, 2, 0, 0]).take
        (2 * (w :: ws).length) = serializeLE16 (w :: ws) :=
      take_len_append _ _ _ (serializeLE16_length _)
    rw [hdrop, htake]
    simp

/-- C1 witness. -/
theorem encode_decode_round_trip_witness :
    3 < 256 ∧ (∀ a ∈ [5, 65535], a < 65536) ∧ 2 * [5, 65535].length ≤ 65535 ∧
      parsePacket (createPacket 3 1 2 [5, 65535]) (2 * [5, 65535].length) =
        .ok ⟨3, if [5, 65535].length = 0 then none else some (serializeLE16 [5, 65535])⟩ :=
  ⟨by decide, by decide, by decide,
    encode_decode_round_trip 1 2 3 [5, 65535] (by decide) (by decide) (by decide)⟩

theorem sum_set_getD (l : List Nat) (i v : Nat) (h : i < l.length) :
    (l.set i v).sum + l.getD i 0 = l.sum + v := by
  induction l generalizing i with
  | nil => simp at h
  | cons x xs ih =>
    cases i with
    | zero => simp [List.set, List.getD]; ring
    | succ j =>
      simp only [List.set, List.sum_cons, List.getD_cons_succ]
      have := ih j (by simpa using h)
      omega

/-- C4: corrupting any single byte strictly before the checksum byte of a
valid packet makes `parsePacket` fail with a checksum mismatch. -/
theorem single_byte_corruption_detected (buff : List Nat) (n i v : Nat)
    (hlen : 11 + n ≤ buff.length)
    (hbytes : ∀ b ∈ buff, b < 256)
    (hvalid : buff.getD (10 + n) 0 = (buff.take (10 + n)).sum % 256)
    (hi : i < 10 + n) (hv : v < 256) (hne : v ≠ buff.getD i 0) :
    parsePacket (buff.set i v) n =
      .error (.checksumMismatch (((buff.set i v).take (10 + n)).sum % 256)
        (buff.getD (10 + n) 0)) := by
  have hi' : i < buff.length := by omega
  have hgetnc : (buff.set i v).getD (10 + n) 0 = buff.getD (10 + n) 0 := by
    simp [List.getD, List.getElem?_set_ne (show i ≠ 10 + n by omega)]
  have hts : (buff.set i v).take (10 + n) = (buff.take (10 + n)).set i v :=
    List.set_take
  have holdeq : (buff.take (10 + n)).getD i 0 = buff.getD i 0 := by
    simp [List.getD, List.getElem?_take, hi]
  have hmem : buff.getD i 0 < 256 := by
    rw [List.getD_eq_getElem buff 0 hi']
    exact hbytes _ (List.getElem_mem hi')
  have hsum : ((buff.take (10 + n)).set i v).sum + (buff.take (10 + n)).getD i 0 =
      (buff.take (10 + n)).sum + v :=
    sum_set_getD _ i v (by simp [List.length_take]; omega)
  have hne2 : ¬ ((buff.set i v).getD (10 + n) 0 =
      ((buff.set i v).take (10 + n)).sum % 256) := by
    rw [hgetnc, hts, hvalid]
    intro heq
    rw [holdeq] at hsum
    omega
  unfold parsePacket
  rw [if_neg hne2, hgetnc]

/-- C4 witness. -/
theorem single_byte_corruption_detected_witness :
    parsePacket (([3, 0, 1, 4, 4, 1, 255, 255, 0, 0, 11, 2, 0, 0] : List Nat).set 3 7) 0 =
      .error (.checksumMismatch
        (((([3, 0, 1, 4, 4, 1, 255, 255, 0, 0, 11, 2, 0, 0] : List Nat).set 3 7).take 10).sum % 256)
        (([3, 0, 1, 4, 4, 1, 255, 255, 0, 0, 11, 2, 0, 0] : List Nat).getD 10 0)) :=
  single_byte_corruption_detected [3, 0, 1, 4, 4, 1, 255, 255, 0, 0, 11, 2, 0, 0] 0 3 7
    (by decide) (by decide) (by decide) (by decide) (by decide) (by decide)

/-- C9: decoding succeeds exactly when the checksum byte matches the mod-256
sum of the bytes before it (no header or footer byte is inspected), and a
successful decode depends only on byte 5 and the payload slice. -/
theorem decode_checks_only_checksum (b1 b2 : List Nat) (n : Nat)
    (_hl1 : 11 + n ≤ b1.length) (_hl2 : 11 + n ≤ b2.length) :
    ((parsePacket b1 n).isOk = true ↔
      b1.getD (10 + n) 0 = (b1.take (10 + n)).sum % 256) ∧
    (b1.getD 5 0 = b2.getD 5 0 → (b1.drop 10).take n = (b2.drop 10).take n →
      (parsePacket b1 n).isOk = true → (parsePacket b2 n).isOk = true →
      parsePacket b1 n = parsePacket b2 n) := by
  constructor
  · by_cases h : b1.getD (10 + n) 0 = (b1.take (10 + n)).sum % 256
    · unfold parsePacket
      rw [if_pos h]
      exact iff_of_true rfl h
    · unfold parsePacket
      rw [if_neg h]
      exact iff_of_false (by simp [Parsed.isOk]) h
  · intro h5 hp ho1 ho2
    by_cases hc1 : b1.getD (10 + n) 0 = (b1.take (10 + n)).sum % 256
    · by_cases hc2 : b2.getD (10 + n) 0 = (b2.take (10 + n)).sum % 256
      · unfold parsePacket
        rw [if_pos hc1, if_pos hc2, h5, hp]
      · exfalso
        unfold parsePacket at ho2
        rw [if_neg hc2] at ho2
        simp [Parsed.isOk] at ho2
    · exfalso
      unfold parsePacket at ho1
      rw [if_neg hc1] at ho1
      simp [Parsed.isOk] at ho1

/-- C9 witness: two buffers differing in every header constant and footer
byte but sharing byte 5 decode identically. -/
theorem decode_checks_only_checksum_witness :
    parsePacket [3, 0, 1, 4, 4, 1, 255, 255, 0, 0, 11, 2, 0, 0] 0 =
      parsePacket [0, 0, 0, 0, 0, 1, 0, 0, 0, 0, 1, 7, 7, 7] 0 :=
  (decode_checks_only_checksum [3, 0, 1, 4, 4, 1, 255, 255, 0, 0, 11, 2, 0, 0]
      [0, 0, 0, 0, 0, 1, 0, 0, 0, 0, 1, 7, 7, 7] 0 (by decide) (by decide)).2
    (by decide) (by decide) (by decide) (by decide)

theorem receive_none_eq (buf data b : List Nat) (h : receive buf data = (b, none)) :
    b = buf ++ data := by
  unfold receive at h
  split_ifs at h <;> simp_all

theorem receive_some_eq (buf data b p : List Nat) (ds : Nat)
    (h : receive buf data = (b, some (p, ds))) :
    ds = readUInt16LE (buf ++ data) 8 ∧ 14 + ds ≤ (buf ++ data).length ∧
      p = (buf ++ data).take (14 + ds) ∧ b = (buf ++ data).drop (14 + ds) := by
  unfold receive at h
  split_ifs at h with h1 h2
  · simp only [Prod.mk.injEq, Option.some.injEq] at h
    obtain ⟨hb, hp, hds⟩ := h
    subst hds
    exact ⟨rfl, h2, hp.symm, hb.symm⟩
  · simp at h
  · simp at h

theorem readUInt16LE_append (b rest : List Nat) (h : 10 ≤ b.length) :
    readUInt16LE (b ++ rest) 8 = readUInt16LE b 8 := by
  unfold readUInt16LE
  rw [getD_append_lt _ _ 8 (by omega), getD_append_lt _ _ 9 (by omega)]

theorem runReceive_conserves (chunks : List (List Nat)) :
    ∀ buf : List Nat,
      (((runReceive buf chunks).2.map Prod.fst).flatten ++ (runReceive buf chunks).1 =
        buf ++ chunks.flatten) := by
  induction chunks with
  | nil => intro buf; simp [runReceive]
  | cons c cs ih =>
    intro buf
    rcases hr : receive buf c with ⟨b, oe⟩
    cases oe with
    | none =>
      have hb := receive_none_eq buf c b hr
      simp only [runReceive, hr]
      rw [ih b, hb]
      simp
    | some e =>
      obtain ⟨p, ds⟩ := e
      obtain ⟨-, -, hp, hb⟩ := receive_some_eq buf c b p ds hr
      have hpb : p ++ b = buf ++ c := by
        rw [hp, hb]; exact List.take_append_drop _ _
      simp only [runReceive, hr, List.map_cons, List.flatten_cons]
      rw [List.append_assoc, ih b, ← List.append_assoc, hpb]
      simp

/-- One receive call on a complete well-sized packet with any trailing
bytes extracts exactly that packet and leaves the trailing bytes. -/
theorem receive_complete (p rest : List Nat) (hp : p.length = 14 + readUInt16LE p 8) :
    receive p rest = (rest, some (p, readUInt16LE p 8)) := by
  unfold receive
  rw [readUInt16LE_append p rest (by omega)]
  rw [if_pos (by simp [List.length_append]; omega),
    if_pos (by simp [List.length_append]; omega)]
  rw [take_len_append _ _ _ hp, drop_len_append _ _ _ hp]

/-- A receive call whose buffered bytes form a strict front part of a
well-sized packet extracts nothing. -/
theorem receive_front_part (p b rest : List Nat) (hp : p.length = 14 + readUInt16LE p 8)
    (hsplit : b ++ rest = p) (hlt : b.length < p.length) :
    receive [] b = (b, none) ∧ ∀ b0 c, b0 ++ c = b → receive b0 c = (b, none) := by
  have main : ∀ b0 c : List Nat, b0 ++ c = b → receive b0 c = (b, none) := by
    intro b0 c hbc
    unfold receive
    rw [hbc]
    by_cases h14 : 14 ≤ b.length
    · have hds : readUInt16LE b 8 = readUInt16LE p 8 := by
        rw [← hsplit, readUInt16LE_append b rest (by omega)]
      rw [if_pos h14, hds, if_neg (by omega)]
    · rw [if_neg h14]
  exact ⟨main [] b (by simp), main⟩

/-- Feeding the chunks of a partition of a well-sized packet to successive
receive calls yields exactly one extraction: the whole packet. -/
theorem runReceive_assembles (p : List Nat) (hp : p.length = 14 + readUInt16LE p 8) :
    ∀ chunks (buf : List Nat), (∀ c ∈ chunks, c ≠ []) → chunks ≠ [] →
      buf ++ chunks.flatten = p → buf.length < p.length →
      runReceive buf chunks = ([], [(p, readUInt16LE p 8)]) := by
  intro chunks
  induction chunks with
  | nil => intro buf _ hne; exact absurd rfl hne
  | cons c cs ih =>
    intro buf hmem _ hjoin hlt
    cases cs with
    | nil =>
      have hbc : buf ++ c = p := by simpa using hjoin
      have hr : receive buf c = ([], some (p, readUInt16LE p 8)) := by
        unfold receive
        rw [hbc]
        rw [if_pos (by omega), if_pos (by omega)]
        rw [← hp, List.take_length, List.drop_length]
      simp only [runReceive, hr]
    | cons c2 cs2 =>
      have hc2 : c2 ≠ [] := hmem c2 (by simp)
      have hc2len : 0 < c2.length := List.length_pos.mpr hc2
      have hjoin2 : (buf ++ c) ++ (c2 :: cs2).flatten = p := by
        rw [List.append_assoc]
        simpa using hjoin
      have hblt : (buf ++ c).length < p.length := by
        have h := congrArg List.length hjoin2
        simp only [List.length_append, List.flatten_cons] at h
        simp only [List.length_append]
        omega
      have hr : receive buf c = (buf ++ c, none) :=
        (receive_front_part p (buf ++ c) ((c2 :: cs2).flatten) hp hjoin2 hblt).2 buf c rfl
      simp only [runReceive, hr]
      exact ih (buf ++ c) (fun x hx => hmem x (by simp [hx])) (by simp) hjoin2 hblt

/-- C8: encoding with an empty argument list yields a packet of exactly 14
bytes whose length-prefix bytes at offsets 8 and 9 are both 0, whose byte 10
is the mod-256 sum of bytes 0..9, and whose last three bytes are 2, 0, 0. -/
theorem zero_arg_encoding (m c s : Nat) :
    (createPacket m c s []).length = 14 ∧
    (createPacket m c s []).getD 8 0 = 0 ∧
    (createPacket m c s []).getD 9 0 = 0 ∧
    (createPacket m c s []).getD 10 0 = ((createPacket m c s []).take 10).sum % 256 ∧
    (createPacket m c s []).drop 11 = [2, 0, 0] :=
  ⟨rfl, rfl, rfl, rfl, rfl⟩

/-- C10: reassembler byte conservation: over any chunk sequence the
extracted packet slices in order followed by the residual receive buffer
reproduce exactly the concatenation of all delivered chunks, and every
extraction removes exactly `14 +` the declared data size (read at offset 8)
bytes from the front of the buffer. -/
theorem reassembler_byte_conservation (chunks : List (List Nat))
    (buf data b p : List Nat) (ds : Nat) :
    (((runReceive [] chunks).2.map Prod.fst).flatten ++ (runReceive [] chunks).1 =
      chunks.flatten) ∧
    (receive buf data = (b, some (p, ds)) →
      p.length = 14 + ds ∧ ds = readUInt16LE (buf ++ data) 8 ∧ buf ++ data = p ++ b) := by
  constructor
  · simpa using runReceive_conserves chunks []
  · intro h
    obtain ⟨hds, hle, hp, hb⟩ := receive_some_eq buf data b p ds h
    refine ⟨?_, hds, ?_⟩
    · rw [hp, List.length_take]
      omega
    · rw [hp, hb]
      exact (List.take_append_drop _ _).symm

/-- C10 witness. -/
theorem reassembler_byte_conservation_witness :
    ([3, 0, 1, 4, 4, 1, 255, 255, 0, 0, 11, 2, 0, 0] : List Nat).length = 14 + 0 ∧
    0 = readUInt16LE (([] : List Nat) ++ [3, 0, 1, 4, 4, 1, 255, 255, 0, 0, 11, 2, 0, 0]) 8 ∧
    ([] : List Nat) ++ [3, 0, 1, 4, 4, 1, 255, 255, 0, 0, 11, 2, 0, 0] =
      [3, 0, 1, 4, 4, 1, 255, 255, 0, 0, 11, 2, 0, 0] ++ ([] : List Nat) :=
  (reassembler_byte_conservation [] [] [3, 0, 1, 4, 4, 1, 255, 255, 0, 0, 11, 2, 0, 0]
      [] [3, 0, 1, 4, 4, 1, 255, 255, 0, 0, 11, 2, 0, 0] 0).2 (by decide)

/-- C5: fragmentation invariance: feeding any partition of a valid packet
into non-empty chunks through successive receive calls starting from an
empty buffer extracts the same single packet as delivering it whole,
leaves the buffer empty, and that packet decodes successfully to its
sequence byte and payload slice. -/
theorem fragmentation_invariance (p : List Nat) (chunks : List (List Nat))
    (hv : ValidPacket p) (hchunks : chunks.flatten = p)
    (hne : ∀ c ∈ chunks, c ≠ []) :
    runReceive [] chunks = runReceive [] [p] ∧
    runReceive [] chunks = ([], [(p, readUInt16LE p 8)]) ∧
    parsePacket p (readUInt16LE p 8) =
      .ok ⟨p.getD 5 0, if readUInt16LE p 8 = 0 then none
        else some ((p.drop 10).take (readUInt16LE p 8))⟩ := by
  obtain ⟨hplen, hsum⟩ := hv
  have hpos : 0 < p.length := by omega
  have hpne : p ≠ [] := by
    intro h
    rw [h] at hpos
    simp at hpos
  have hcne : chunks ≠ [] := by
    intro h
    rw [h] at hchunks
    exact hpne hchunks.symm
  have h1 : runReceive [] chunks = ([], [(p, readUInt16LE p 8)]) :=
    runReceive_assembles p hplen chunks [] hne hcne (by simpa using hchunks)
      (by simpa using hpos)
  have h2 : runReceive [] [p] = ([], [(p, readUInt16LE p 8)]) :=
    runReceive_assembles p hplen [p] [] (by simp [hpne]) (by simp) (by simp)
      (by simpa using hpos)
  refine ⟨h1.trans h2.symm, h1, ?_⟩
  unfold parsePacket
  rw [if_pos hsum]

/-- C5 witness. -/
theorem fragmentation_invariance_witness :
    runReceive [] [[3, 0, 1], [4, 4, 1, 255, 255, 0, 0, 11], [2, 0, 0]] =
      ([], [([3, 0, 1, 4, 4, 1, 255, 255, 0, 0, 11, 2, 0, 0],
        readUInt16LE [3, 0, 1, 4, 4, 1, 255, 255, 0, 0, 11, 2, 0, 0] 8)]) :=
  (fragmentation_invariance [3, 0, 1, 4, 4, 1, 255, 255, 0, 0, 11, 2, 0, 0]
      [[3, 0, 1], [4, 4, 1, 255, 255, 0, 0, 11], [2, 0, 0]]
      (by decide) (by decide) (by decide)).2.1

/-- C2 counterexample: delivering the concatenation of two valid packets in
one receive call on an empty buffer extracts only the first packet; the
complete second packet remains in the buffer during that call, so the
extraction does not repeat while a complete packet remains. -/
theorem single_call_extracts_one_packet_counterexample :
    receive [] ([3, 0, 1, 4, 4, 1, 255, 255, 0, 0, 11, 2, 0, 0] ++
        [3, 0, 1, 4, 5, 2, 255, 255, 0, 0, 13, 2, 0, 0]) =
      ([3, 0, 1, 4, 5, 2, 255, 255, 0, 0, 13, 2, 0, 0],
        some ([3, 0, 1, 4, 4, 1, 255, 255, 0, 0, 11, 2, 0, 0], 0)) ∧
    ValidPacket [3, 0, 1, 4, 4, 1, 255, 255, 0, 0, 11, 2, 0, 0] ∧
    ValidPacket [3, 0, 1, 4, 5, 2, 255, 255, 0, 0, 13, 2, 0, 0] := by decide

/-- C2 amended: each receive call extracts at most one packet.  The call
receiving two concatenated valid packets extracts and decodes only the
first, leaving the second whole at the front of the buffer; the next
receive call — whatever bytes it carries — extracts the second, and both
decode successfully. -/
theorem coalesced_packets_extracted_across_calls (p1 p2 : List Nat)
    (h1 : ValidPacket p1) (h2 : ValidPacket p2) :
    receive [] (p1 ++ p2) = (p2, some (p1, readUInt16LE p1 8)) ∧
    (∀ d, receive p2 d = (d, some (p2, readUInt16LE p2 8))) ∧
    (parsePacket p1 (readUInt16LE p1 8)).isOk = true ∧
    (parsePacket p2 (readUInt16LE p2 8)).isOk = true := by
  obtain ⟨hl1, hs1⟩ := h1
  obtain ⟨hl2, hs2⟩ := h2
  refine ⟨?_, fun d => receive_complete p2 d hl2, ?_, ?_⟩
  · have h := receive_complete p1 p2 hl1
    unfold receive at h ⊢
    simpa using h
  · unfold parsePacket
    rw [if_pos hs1]
    rfl
  · unfold parsePacket
    rw [if_pos hs2]
    rfl

/-- C2 amended witness. -/
theorem coalesced_packets_extracted_across_calls_witness :
    receive [] ([3, 0, 1, 4, 4, 1, 255, 255, 0, 0, 11, 2, 0, 0] ++
        [3, 0, 1, 4, 5, 2, 255, 255, 0, 0, 13, 2, 0, 0]) =
      ([3, 0, 1, 4, 5, 2, 255, 255, 0, 0, 13, 2, 0, 0],
        some ([3, 0, 1, 4, 4, 1, 255, 255, 0, 0, 11, 2, 0, 0],
          readUInt16LE [3, 0, 1, 4, 4, 1, 255, 255, 0, 0, 11, 2, 0, 0] 8)) ∧
    receive [3, 0, 1, 4, 5, 2, 255, 255, 0, 0, 13, 2, 0, 0] [] =
      ([], some ([3, 0, 1, 4, 5, 2, 255, 255, 0, 0, 13, 2, 0, 0],
        readUInt16LE [3, 0, 1, 4, 5, 2, 255, 255, 0, 0, 13, 2, 0, 0] 8)) :=
  ⟨(coalesced_packets_extracted_across_calls
      [3, 0, 1, 4, 4, 1, 255, 255, 0, 0, 11, 2, 0, 0]
      [3, 0, 1, 4, 5, 2, 255, 255, 0, 0, 13, 2, 0, 0] (by decide) (by decide)).1,
    (coalesced_packets_extracted_across_calls
      [3, 0, 1, 4, 4, 1, 255, 255, 0, 0, 11, 2, 0, 0]
      [3, 0, 1, 4, 5, 2, 255, 255, 0, 0, 13, 2, 0, 0] (by decide) (by decide)).2.1 []⟩

/-- C3: the sequence counter does not wrap modulo 256: the send with
counter 255 leaves the counter at 256; that next send stores sequence
byte `256 % 256 = 0` in the packet while registering its awaiter under
key 256, so the sequence number placed in the packet differs from the
registration key. -/
theorem sequence_counter_does_not_wrap :
    (sendAllocation 255).2.2 = 256 ∧
    (sendAllocation 256).1 = 0 ∧
    (sendAllocation 256).2.1 = 256 ∧
    (createPacket 256 4 4 []).getD 5 0 = 0 ∧
    (sendAllocation 256).1 ≠ (sendAllocation 256).2.1 := by decide

/-- C6: each mode setter validates its argument against its option map
before issuing any send: an unrecognized mode makes the setter fail with
the InvalidOption message listing every valid option name (producing no
send call), and validating a recognized mode returns its numeric wire
value. -/
theorem setter_option_validation (mode : String) :
    (List.lookup mode AGC_MODES = none → setAGC mode = .error (invalidMsg mode AGC_MODES)) ∧
    (∀ v, List.lookup mode AGC_MODES = some v → validate mode AGC_MODES = .ok v) ∧
    (List.lookup mode ITT_MODES = none → setITT mode = .error (invalidMsg mode ITT_MODES)) ∧
    (∀ v, List.lookup mode ITT_MODES = some v → validate mode ITT_MODES = .ok v) ∧
    (List.lookup mode LUT_MODES = none → setLUT mode = .error (invalidMsg mode LUT_MODES)) ∧
    (∀ v, List.lookup mode LUT_MODES = some v → validate mode LUT_MODES = .ok v) ∧
    (List.lookup mode NUC_MODES = none → setNUC mode = .error (invalidMsg mode NUC_MODES)) ∧
    (∀ v, List.lookup mode NUC_MODES = some v → validate mode NUC_MODES = .ok v) := by
  refine ⟨fun h => ?_, fun v h => ?_, fun h => ?_, fun v h => ?_,
    fun h => ?_, fun v h => ?_, fun h => ?_, fun v h => ?_⟩ <;>
    simp [setAGC, setITT, setLUT, setNUC, validate, h]

/-- C6 witness. -/
theorem setter_option_validation_witness :
    setAGC "fake" = .error (invalidMsg "fake" AGC_MODES) ∧
    validate "off" AGC_MODES = .ok (-1) ∧
    setITT "fake" = .error (invalidMsg "fake" ITT_MODES) ∧
    validate "linear" ITT_MODES = .ok 1 ∧
    setLUT "fake" = .error (invalidMsg "fake" LUT_MODES) ∧
    validate "color" LUT_MODES = .ok 2 ∧
    setNUC "fake" = .error (invalidMsg "fake" NUC_MODES) ∧
    validate "hot" NUC_MODES = .ok 4 :=
  ⟨(setter_option_validation "fake").1 (by decide),
    (setter_option_validation "off").2.1 (-1) (by decide),
    (setter_option_validation "fake").2.2.1 (by decide),
    (setter_option_validation "linear").2.2.2.1 1 (by decide),
    (setter_option_validation "fake").2.2.2.2.1 (by decide),
    (setter_option_validation "color").2.2.2.2.2.1 2 (by decide),
    (setter_option_validation "fake").2.2.2.2.2.2.1 (by decide),
    (setter_option_validation "hot").2.2.2.2.2.2.2 4 (by decide)⟩

theorem lookup_invertMap_eq_none (options : List (String × Int)) (v : Int) :
    List.lookup v (invertMap options) = none ↔ v ∉ options.map Prod.snd := by
  induction options with
  | nil => simp [invertMap]
  | cons p ps ih =>
    simp only [invertMap, List.map_cons] at ih ⊢
    by_cases h : v = p.2
    · simp [List.lookup, h]
    · have hb : (v == p.2) = false := by simpa using h
      simp [List.lookup, hb, h, ih]

/-- C7 counterexample: wire value 0 is unmapped in all three inverse maps
and each getter's decode returns `none` — the model of the source's
`undefined` — rather than any explicit unknown outcome. -/
theorem getter_returns_undefined_counterexample :
    getITTDecode 0 = none ∧ getLUTDecode 0 = none ∧ getNUCDecode 0 = none := by decide

/-- C7 amended: a getter's decode yields `none` (JavaScript `undefined`)
exactly when the wire value is not one of its option map's values: unmapped
numeric values are silently undefined, with no explicit unknown outcome. -/
theorem getter_unmapped_wire_yields_none (wire : Nat) :
    (getITTDecode wire = none ↔ (wire : Int) ∉ ITT_MODES.map Prod.snd) ∧
    (getLUTDecode wire = none ↔ (wire : Int) ∉ LUT_MODES.map Prod.snd) ∧
    (getNUCDecode wire = none ↔ (wire : Int) ∉ NUC_MODES.map Prod.snd) :=
  ⟨lookup_invertMap_eq_none ITT_MODES wire, lookup_invertMap_eq_none LUT_MODES wire,
    lookup_invertMap_eq_none NUC_MODES wire⟩

end AmberRadiance
